import Mathlib

/-!
Verification of the Bing aerial image retrieval repository.

Shallow embedding of the three source files:
- `bingTileSystem.py` (class `TileSystem`): quadkey and pixel/tile coordinate
  algebra.  Python binary strings are modelled as `List Bool` (most significant
  bit first), quadkeys as `List Nat` of base-4 digits.  A Python function that
  can raise is modelled with `Option`/`Except`.
- `BoundingBox.py` (`boundingBox`): real-number geometry over `ℝ`.
- `imageRetrieval.py` (class `BingAerialImage`): the level search
  `max_resolution_imagery_retrieval` and the row loop
  `horizontal_retrieval_and_stitch_image`, parameterised over the two I/O
  boundaries (the pixel projection of the two corners per level, and the tile
  fetch).  An uncaught Python exception from a fetch is the `Outcome.exception`
  value; a fetch oracle answer `none` models `urllib.request.urlopen` raising,
  `some b` models a downloaded image with `is_valid_image` result `b`.
-/

/-- Python `'{0:b}'.format` digit loop, little-endian, with explicit fuel.
`binAuxFuel fuel n` equals the little-endian binary digits of `n` whenever
`n ≤ fuel`; the fuel only serves structural termination. -/
def binAuxFuel : Nat → Nat → List Bool
  | 0, _ => []
  | _ + 1, 0 => []
  | fuel + 1, n + 1 => ((n + 1) % 2 == 1) :: binAuxFuel fuel ((n + 1) / 2)

/-- Little-endian binary digits of `n` (empty for 0). -/
def pyBinAux (n : Nat) : List Bool := binAuxFuel n n

/-- Python `'{0:b}'.format(n)`: binary digits of `n`, most significant first,
with `"0"` for zero. -/
def pyBin (n : Nat) : List Bool := if n = 0 then [false] else (pyBinAux n).reverse

/-- Python `'{0:0{1}b}'.format(n, w)`: binary digits of `n` left-padded with
zeros to width `w` (never truncated when the representation is longer). -/
def pyFormatB (n w : Nat) : List Bool :=
  List.replicate (w - (pyBin n).length) false ++ pyBin n

/-- Python `int(s, 2)` on a non-empty bit string (callers guard emptiness). -/
def bitsToNat (l : List Bool) : Nat := l.foldl (fun a b => 2 * a + b.toNat) 0

/-- Python `re.findall('..?', s)`: split into chunks of two, a trailing
single character kept as a chunk of one. -/
def chunk2 {α : Type} : List α → List (List α)
  | [] => []
  | [a] => [[a]]
  | a :: b :: rest => [a, b] :: chunk2 rest

/-- Python slice `l[::2]`: elements at even indices. -/
def evens {α : Type} : List α → List α
  | [] => []
  | [a] => [a]
  | a :: _ :: rest => a :: evens rest

/-- Python slice `l[1::2]`: elements at odd indices. -/
def odds {α : Type} : List α → List α
  | [] => []
  | [_] => []
  | _ :: b :: rest => b :: odds rest

/-- `TileSystem.TILESIZE`. -/
def TILESIZE : Nat := 256

/-- `TileSystem.mapSize`: `256 << levelOfDetail`. -/
def mapSize (levelOfDetail : Nat) : Nat := 256 <<< levelOfDetail

/-- `TileSystem.pixelXYToTileXY`: `int(pixel / 256)` componentwise (pixel
coordinates are non-negative, so float division plus `int` is `Nat` division). -/
def pixelXYToTileXY (pixelX pixelY : Nat) : Nat × Nat :=
  (pixelX / TILESIZE, pixelY / TILESIZE)

/-- `TileSystem.tileXYToPixelXY`: multiply by `TILESIZE`. -/
def tileXYToPixelXY (tileX tileY : Nat) : Nat × Nat :=
  (tileX * TILESIZE, tileY * TILESIZE)

/-- `TileSystem.tileXYToQuadKey`: format `tileX` and `tileY` as binary strings
zero-padded to width `levelOfDetail`, interleave with
`chain(*zip(tileYbits, tileXbits))` (a Y bit then an X bit; `zip` truncates to
the shorter string), split the result into two-character chunks and read each
chunk as a base-2 number, giving one base-4 digit per chunk. -/
def tileXYToQuadKey (tileX tileY levelOfDetail : Nat) : List Nat :=
  let tileXbits := pyFormatB tileX levelOfDetail
  let tileYbits := pyFormatB tileY levelOfDetail
  let quadkeybinary := (tileYbits.zip tileXbits).flatMap fun p => [p.1, p.2]
  (chunk2 quadkeybinary).map bitsToNat

/-- `TileSystem.quadKeyToTileXY`: expand each digit with `'{0:02b}'.format`,
then `tileX = int(bits[1::2], 2)` and `tileY = int(bits[::2], 2)`.
Python `int('', 2)` raises `ValueError`, modelled as `none` when the sliced
bit string is empty. -/
def quadKeyToTileXY (quadKey : List Nat) : Option (Nat × Nat) :=
  let quadkeybinary := quadKey.flatMap fun num => pyFormatB num 2
  match odds quadkeybinary, evens quadkeybinary with
  | [], _ => none
  | _, [] => none
  | xbits, ybits => some (bitsToNat xbits, bitsToNat ybits)

/-- Python runtime errors relevant to this repository. -/
inductive PyError : Type
  | nameError : PyError
deriving DecidableEq

/-- `TileSystem.groundResolution`.  Its first statement is
`latitude = TileSystem.clip(latitude, self.MINLAT, TileSystem.MAXLAT)`, but the
function is a `@staticmethod`: the name `self` is unbound there, so every call
raises `NameError` before any arithmetic happens.  The embedding therefore
returns that error unconditionally. -/
def groundResolution (latitude : ℝ) (levelOfDetail : Nat) : Except PyError ℝ :=
  Except.error PyError.nameError

/-! ### Lemmas about the binary-string helpers -/

theorem bitsToNat_cons (a : Bool) (l : List Bool) :
    bitsToNat (a :: l) = l.foldl (fun a b => 2 * a + b.toNat) a.toNat := by
  simp [bitsToNat]

theorem bitsToNat_replicate_false (k : Nat) (l : List Bool) :
    bitsToNat (List.replicate k false ++ l) = bitsToNat l := by
  induction k with
  | zero => simp
  | succ k ih => simpa [List.replicate_succ, bitsToNat] using ih

theorem bitsToNat_binAuxFuel_reverse (fuel : Nat) :
    ∀ n, n ≤ fuel → bitsToNat (binAuxFuel fuel n).reverse = n := by
  induction fuel with
  | zero =>
    intro n hn
    interval_cases n
    simp [binAuxFuel, bitsToNat]
  | succ fuel ih =>
    intro n hn
    match n with
    | 0 => simp [binAuxFuel, bitsToNat]
    | m + 1 =>
      have hq : (m + 1) / 2 ≤ fuel := by omega
      have := ih ((m + 1) / 2) hq
      simp only [binAuxFuel, List.reverse_cons]
      rw [bitsToNat, List.foldl_append, ← bitsToNat]
      rw [this]
      simp only [List.foldl]
      have hm2 : (m + 1) % 2 = 0 ∨ (m + 1) % 2 = 1 := Nat.mod_two_eq_zero_or_one _
      rcases hm2 with h | h <;> simp [h] <;> omega

theorem binAuxFuel_length_le (fuel : Nat) :
    ∀ n w, n ≤ fuel → n < 2 ^ w → (binAuxFuel fuel n).length ≤ w := by
  induction fuel with
  | zero =>
    intro n w hn _
    interval_cases n
    simp [binAuxFuel]
  | succ fuel ih =>
    intro n w hn hw
    match n with
    | 0 => simp [binAuxFuel]
    | m + 1 =>
      match w with
      | 0 => omega
      | k + 1 =>
        have hq : (m + 1) / 2 ≤ fuel := by omega
        have hqk : (m + 1) / 2 < 2 ^ k := by
          rw [Nat.div_lt_iff_lt_mul (by norm_num)]
          calc m + 1 < 2 ^ (k + 1) := hw
            _ = 2 ^ k * 2 := by rw [Nat.pow_succ]
        have := ih ((m + 1) / 2) k hq hqk
        simp only [binAuxFuel, List.length_cons]
        omega

theorem pyBin_length_pos (n : Nat) : 1 ≤ (pyBin n).length := by
  unfold pyBin
  split
  · simp
  · rename_i h
    match n, h with
    | m + 1, _ =>
      simp only [pyBinAux, binAuxFuel, List.reverse_cons, List.length_append]
      simp

theorem pyBin_length_le {n w : Nat} (hn : n < 2 ^ w) (hw : 1 ≤ w) :
    (pyBin n).length ≤ w := by
  unfold pyBin
  split
  · simpa using hw
  · rw [List.length_reverse]
    exact binAuxFuel_length_le n n w le_rfl hn

theorem pyFormatB_length {n w : Nat} (h : (pyBin n).length ≤ w) :
    (pyFormatB n w).length = w := by
  simp only [pyFormatB, List.length_append, List.length_replicate]
  omega

theorem bitsToNat_pyBin (n : Nat) : bitsToNat (pyBin n) = n := by
  unfold pyBin
  split
  · rename_i h
    simp [h, bitsToNat]
  · exact bitsToNat_binAuxFuel_reverse n n le_rfl

theorem bitsToNat_pyFormatB (n w : Nat) : bitsToNat (pyFormatB n w) = n := by
  rw [pyFormatB, bitsToNat_replicate_false, bitsToNat_pyBin]

theorem chunk2_flatMap_pairs {α : Type} (l : List (α × α)) :
    chunk2 (l.flatMap fun p => [p.1, p.2]) = l.map fun p => [p.1, p.2] := by
  induction l with
  | nil => rfl
  | cons p t ih =>
    show [p.1, p.2] :: chunk2 (t.flatMap fun p => [p.1, p.2]) = _
    rw [ih, List.map_cons]

theorem evens_flatMap_pairs {α : Type} (l : List (α × α)) :
    evens (l.flatMap fun p => [p.1, p.2]) = l.map Prod.fst := by
  induction l with
  | nil => rfl
  | cons p t ih =>
    show p.1 :: evens (t.flatMap fun p => [p.1, p.2]) = _
    rw [ih, List.map_cons]

theorem odds_flatMap_pairs {α : Type} (l : List (α × α)) :
    odds (l.flatMap fun p => [p.1, p.2]) = l.map Prod.snd := by
  induction l with
  | nil => rfl
  | cons p t ih =>
    show p.2 :: odds (t.flatMap fun p => [p.1, p.2]) = _
    rw [ih, List.map_cons]

theorem bitsToNat_pair (a b : Bool) : bitsToNat [a, b] = 2 * a.toNat + b.toNat := by
  cases a <;> cases b <;> rfl

theorem pyFormatB_pair (a b : Bool) : pyFormatB (2 * a.toNat + b.toNat) 2 = [a, b] := by
  cases a <;> cases b <;> rfl

theorem chunk2_mem_length {α : Type} :
    ∀ (l : List α) c, c ∈ chunk2 l → c.length ≤ 2 := by
  intro l
  induction l using chunk2.induct with
  | case1 => intro c hc; simp [chunk2] at hc
  | case2 a =>
    intro c hc
    simp [chunk2] at hc
    simp [hc]
  | case3 a b rest ih =>
    intro c hc
    simp only [chunk2, List.mem_cons] at hc
    rcases hc with rfl | hc
    · simp
    · exact ih c hc

theorem bitsToNat_lt_four {l : List Bool} (h : l.length ≤ 2) : bitsToNat l < 4 := by
  match l, h with
  | [], _ => decide
  | [a], _ => cases a <;> decide
  | [a, b], _ => cases a <;> cases b <;> decide

/-- Every output of `tileXYToQuadKey` is a string of base-4 digits, whatever the
inputs (in range or not). -/
theorem tileXYToQuadKey_digits (tileX tileY levelOfDetail : Nat) :
    ∀ d ∈ tileXYToQuadKey tileX tileY levelOfDetail, d < 4 := by
  intro d hd
  unfold tileXYToQuadKey at hd
  simp only [List.mem_map] at hd
  obtain ⟨c, hc, rfl⟩ := hd
  exact bitsToNat_lt_four (chunk2_mem_length _ c hc)

theorem flatMap_map {α β γ : Type} (f : α → β) (g : β → List γ) (l : List α) :
    (l.map f).flatMap g = l.flatMap fun x => g (f x) := by
  induction l with
  | nil => rfl
  | cons h t ih =>
    show g (f h) ++ (t.map f).flatMap g = g (f h) ++ t.flatMap fun x => g (f x)
    rw [ih]

theorem flatMap_congr {α β : Type} (l : List α) (f g : α → List β)
    (h : ∀ x ∈ l, f x = g x) : l.flatMap f = l.flatMap g := by
  induction l with
  | nil => rfl
  | cons a t ih =>
    show f a ++ t.flatMap f = g a ++ t.flatMap g
    rw [h a (List.mem_cons_self a t), ih fun x hx => h x (List.mem_cons_of_mem a hx)]

/-- Normal form of `tileXYToQuadKey`: one base-4 digit `2·y + x` per
bit pair of the zipped, padded binary strings. -/
theorem tileXYToQuadKey_eq_map (tileX tileY levelOfDetail : Nat) :
    tileXYToQuadKey tileX tileY levelOfDetail =
      ((pyFormatB tileY levelOfDetail).zip (pyFormatB tileX levelOfDetail)).map
        fun p => 2 * p.1.toNat + p.2.toNat := by
  show (chunk2 (((pyFormatB tileY levelOfDetail).zip (pyFormatB tileX levelOfDetail)).flatMap
      fun p => [p.1, p.2])).map bitsToNat = _
  rw [chunk2_flatMap_pairs, List.map_map]
  exact List.map_congr_left fun p _ => bitsToNat_pair p.1 p.2

/-- Claim C2: for every zoom level z in [1,23] and tile indices tx, ty in
[0, 2^z), decoding the quadkey produced by `tileXYToQuadKey` returns exactly
(tx, ty), and the quadkey has length z with every digit in 0..3. -/
theorem tileQuadKey_roundTrip (z tx ty : Nat) (hz1 : 1 ≤ z) (hz2 : z ≤ 23)
    (hx : tx < 2 ^ z) (hy : ty < 2 ^ z) :
    quadKeyToTileXY (tileXYToQuadKey tx ty z) = some (tx, ty) ∧
    (tileXYToQuadKey tx ty z).length = z ∧
    ∀ d ∈ tileXYToQuadKey tx ty z, d < 4 := by
  have hlx : (pyFormatB tx z).length = z := pyFormatB_length (pyBin_length_le hx hz1)
  have hly : (pyFormatB ty z).length = z := pyFormatB_length (pyBin_length_le hy hz1)
  have hkey := tileXYToQuadKey_eq_map tx ty z
  refine ⟨?_, ?_, tileXYToQuadKey_digits tx ty z⟩
  · rw [hkey]
    show (match odds ((((pyFormatB ty z).zip (pyFormatB tx z)).map
            (fun p => 2 * p.1.toNat + p.2.toNat)).flatMap fun num => pyFormatB num 2),
          evens ((((pyFormatB ty z).zip (pyFormatB tx z)).map
            (fun p => 2 * p.1.toNat + p.2.toNat)).flatMap fun num => pyFormatB num 2) with
      | [], _ => none
      | _, [] => none
      | xbits, ybits => some (bitsToNat xbits, bitsToNat ybits)) = some (tx, ty)
    have h1 : ((((pyFormatB ty z).zip (pyFormatB tx z)).map
          (fun p => 2 * p.1.toNat + p.2.toNat)).flatMap fun num => pyFormatB num 2)
        = ((pyFormatB ty z).zip (pyFormatB tx z)).flatMap fun p => [p.1, p.2] := by
      rw [flatMap_map]
      exact flatMap_congr _ _ _ fun p _ => pyFormatB_pair p.1 p.2
    rw [h1, odds_flatMap_pairs, evens_flatMap_pairs,
      List.map_snd_zip _ _ (le_of_eq (hlx.trans hly.symm)),
      List.map_fst_zip _ _ (le_of_eq (hly.trans hlx.symm))]
    obtain ⟨xh, xt, hxe⟩ :=
      List.exists_cons_of_ne_nil (List.length_pos.mp (by omega : 0 < (pyFormatB tx z).length))
    obtain ⟨yh, yt, hye⟩ :=
      List.exists_cons_of_ne_nil (List.length_pos.mp (by omega : 0 < (pyFormatB ty z).length))
    rw [hxe, hye]
    show some (bitsToNat (xh :: xt), bitsToNat (yh :: yt)) = some (tx, ty)
    rw [← hxe, ← hye, bitsToNat_pyFormatB, bitsToNat_pyFormatB]
  · rw [hkey, List.length_map, List.length_zip, hly, hlx]
    omega

/-- Witness for C2 at the regression fixture z = 3, (tx, ty) = (3, 5),
whose quadkey is the three-digit string 213. -/
theorem tileQuadKey_roundTrip_witness :
    quadKeyToTileXY (tileXYToQuadKey 3 5 3) = some (3, 5) ∧
    (tileXYToQuadKey 3 5 3).length = 3 ∧ tileXYToQuadKey 3 5 3 = [2, 1, 3] :=
  ⟨(tileQuadKey_roundTrip 3 3 5 (by decide) (by decide) (by decide) (by decide)).1,
   (tileQuadKey_roundTrip 3 3 5 (by decide) (by decide) (by decide) (by decide)).2.1,
   by decide⟩

/-- Claim C9: `tileXYToQuadKey` performs no range validation.  Every output is
a base-4 digit string, even out of range; and the out-of-range tile (2, 0) at
level 1 (where 2 ≥ 2^1) collides with the in-range tile (1, 0): the zip in the
source silently drops the low-order bits of the over-wide binary string. -/
theorem tileXYToQuadKey_no_validation :
    (∀ tx ty z, ∀ d ∈ tileXYToQuadKey tx ty z, d < 4) ∧
    tileXYToQuadKey 2 0 1 = tileXYToQuadKey 1 0 1 ∧
    tileXYToQuadKey 2 0 1 = [1] ∧ 2 ^ 1 ≤ 2 ∧ 1 < 2 ^ 1 ∧
    ((2, 0) : Nat × Nat) ≠ (1, 0) :=
  ⟨tileXYToQuadKey_digits, by decide, by decide, by decide, by decide, by decide⟩

/-- Witness for C9: the collision output [1] is itself a digit string. -/
theorem tileXYToQuadKey_no_validation_witness :
    1 ∈ tileXYToQuadKey 1 0 1 ∧ (1 : Nat) < 4 :=
  ⟨by decide, tileXYToQuadKey_no_validation.1 1 0 1 1 (by decide)⟩

theorem pyFormatB_two_le (n : Nat) : 2 ≤ (pyFormatB n 2).length := by
  simp only [pyFormatB, List.length_append, List.length_replicate]
  have := pyBin_length_pos n
  omega

/-- Claim C10: `quadKeyToTileXY` on the empty quadkey hits `int('', 2)` and
raises (modelled as `none`); on any non-empty digit string it returns a value. -/
theorem quadKeyToTileXY_empty_raises :
    quadKeyToTileXY [] = none ∧
    ∀ qk : List Nat, qk ≠ [] → (quadKeyToTileXY qk).isSome = true := by
  refine ⟨rfl, ?_⟩
  intro qk hqk
  match qk, hqk with
  | d :: rest, _ =>
    show (match odds (pyFormatB d 2 ++ rest.flatMap fun num => pyFormatB num 2),
           evens (pyFormatB d 2 ++ rest.flatMap fun num => pyFormatB num 2) with
      | [], _ => none
      | _, [] => none
      | xbits, ybits => some (bitsToNat xbits, bitsToNat ybits)).isSome = true
    have hlen : 2 ≤ (pyFormatB d 2 ++ rest.flatMap fun num => pyFormatB num 2).length := by
      rw [List.length_append]
      have := pyFormatB_two_le d
      omega
    obtain ⟨a, t1, h1⟩ := List.exists_cons_of_ne_nil
      (List.length_pos.mp (by omega : 0 < (pyFormatB d 2 ++ rest.flatMap fun num => pyFormatB num 2).length))
    have ht1 : t1 ≠ [] := by
      intro h
      rw [h1, h] at hlen
      simp at hlen
    obtain ⟨b, t, h2⟩ := List.exists_cons_of_ne_nil ht1
    rw [h1, h2]
    rfl

/-- Witness for C10: the one-digit quadkey 0 decodes successfully. -/
theorem quadKeyToTileXY_empty_raises_witness : (quadKeyToTileXY [0]).isSome = true :=
  quadKeyToTileXY_empty_raises.2 [0] (by decide)

/-! ### `BoundingBox.py` -/

/-- `boundingBox` from `BoundingBox.py`: convert the centre to radians, offset
by `s / r` with `r = 3963`, convert each corner back to degrees.  The four
components are returned in the source's list order
`(upper_left, upper_right, lower_left, lower_right)`, with exactly the
assignments written in the source: `upper_right = (lat + δ, lon + δ)`,
`lower_right = (lat + δ, lon - δ)`, `upper_left = (lat - δ, lon + δ)`,
`lower_left = (lat - δ, lon - δ)` (in radians). -/
noncomputable def boundingBox (lat lon : ℝ) (s : ℝ := 0.15) :
    (ℝ × ℝ) × (ℝ × ℝ) × (ℝ × ℝ) × (ℝ × ℝ) :=
  let r : ℝ := 3963
  let lat_rad := lat * Real.pi / 180
  let lon_rad := lon * Real.pi / 180
  let upper_right := (lat_rad + s / r, lon_rad + s / r)
  let lower_right := (lat_rad + s / r, lon_rad - s / r)
  let upper_left := (lat_rad - s / r, lon_rad + s / r)
  let lower_left := (lat_rad - s / r, lon_rad - s / r)
  let toDeg : ℝ × ℝ → ℝ × ℝ := fun c => (c.1 * 180 / Real.pi, c.2 * 180 / Real.pi)
  (toDeg upper_left, toDeg upper_right, toDeg lower_left, toDeg lower_right)

/-- `boundingBox(..., mode=2)`: `return bounds[0], bounds[3]`, i.e. the pair
the caller treats as (upperLeft, lowerRight). -/
noncomputable def boundingBoxMode2 (lat lon : ℝ) (s : ℝ := 0.15) : (ℝ × ℝ) × (ℝ × ℝ) :=
  ((boundingBox lat lon s).1, (boundingBox lat lon s).2.2.2)

/-- Claim C1 (refuted, code bug): the pair returned by mode 2 has its corner
labels swapped.  At centre (0, 0) with s = 0.15 the first component
("upperLeft") has latitude strictly below and longitude strictly above the
second ("lowerRight"), the opposite of the claimed `upperLeft.latitude ≥
lowerRight.latitude` and `upperLeft.longitude ≤ lowerRight.longitude`; in
general the source assigns `upper_left = (lat - δ, lon + δ)` and
`lower_right = (lat + δ, lon - δ)`. -/
theorem boundingBox_labels_swapped :
    ((boundingBoxMode2 0 0 0.15).1.1 < (boundingBoxMode2 0 0 0.15).2.1) ∧
    ((boundingBoxMode2 0 0 0.15).2.2 < (boundingBoxMode2 0 0 0.15).1.2) ∧
    ∀ lat lon s : ℝ, boundingBoxMode2 lat lon s =
      (((lat * Real.pi / 180 - s / 3963) * 180 / Real.pi,
        (lon * Real.pi / 180 + s / 3963) * 180 / Real.pi),
       ((lat * Real.pi / 180 + s / 3963) * 180 / Real.pi,
        (lon * Real.pi / 180 - s / 3963) * 180 / Real.pi)) := by
  have hπ : (0 : ℝ) < Real.pi := Real.pi_pos
  have key : ∀ u v : ℝ, u < v → u * 180 / Real.pi < v * 180 / Real.pi := by
    intro u v huv
    have h180 : u * 180 < v * 180 := by nlinarith
    exact div_lt_div_of_pos_right h180 hπ
  refine ⟨?_, ?_, fun lat lon s => rfl⟩
  · show (0 * Real.pi / 180 - 0.15 / 3963) * 180 / Real.pi <
      (0 * Real.pi / 180 + 0.15 / 3963) * 180 / Real.pi
    exact key _ _ (by norm_num)
  · show (0 * Real.pi / 180 - 0.15 / 3963) * 180 / Real.pi <
      (0 * Real.pi / 180 + 0.15 / 3963) * 180 / Real.pi
    exact key _ _ (by norm_num)

/-- Claim C6 (refuted, code bug): `groundResolution` never returns: every call
raises `NameError` because the `@staticmethod` body reads `self.MINLAT`. -/
theorem groundResolution_raises :
    groundResolution 0 1 = Except.error PyError.nameError ∧
    ∀ (lat : ℝ) (z : Nat), groundResolution lat z = Except.error PyError.nameError :=
  ⟨rfl, fun _ _ => rfl⟩

/-! ### `imageRetrieval.py`: the level search of
`BingAerialImage.max_resolution_imagery_retrieval` -/

/-- `MAXSIZE = 8192 * 8192 * 8`. -/
def MAXSIZE : Nat := 8192 * 8192 * 8

/-- Session state and I/O boundaries of one `BingAerialImage` request.
`tileSize` is `self.tileSize` from the service metadata; `maxZoom` is
`self.maxZoom`; `corners lvl` is the pair
`(latLongToPixelXY(upper_left, lvl), latLongToPixelXY(lower_right, lvl))`
(the projection returns non-negative integers below `mapSize lvl`); `fetch qk`
is the combined `download_image` / `is_valid_image` boundary for the quadkey
`qk`: `none` when `urllib.request.urlopen` (or the decode) raises, `some b`
when a tile was downloaded and `is_valid_image` returned `b`. -/
structure Env : Type where
  tileSize : Nat
  maxZoom : Nat
  corners : Nat → (Nat × Nat) × (Nat × Nat)
  fetch : List Nat → Option Bool

/-- `pixelX1` after the min/max normalisation on lines 111-112. -/
def pixelX1 (e : Env) (lvl : Nat) : Nat := min (e.corners lvl).1.1 (e.corners lvl).2.1

/-- `pixelX2` after the min/max normalisation. -/
def pixelX2 (e : Env) (lvl : Nat) : Nat := max (e.corners lvl).1.1 (e.corners lvl).2.1

/-- `pixelY1` after the min/max normalisation. -/
def pixelY1 (e : Env) (lvl : Nat) : Nat := min (e.corners lvl).1.2 (e.corners lvl).2.2

/-- `pixelY2` after the min/max normalisation. -/
def pixelY2 (e : Env) (lvl : Nat) : Nat := max (e.corners lvl).1.2 (e.corners lvl).2.2

/-- Line 117: `abs(pixelX1 - pixelX2) <= 1 or abs(pixelY1 - pixelY2) <= 1`
(after normalisation the absolute differences are `max - min`). -/
def degenerate (e : Env) (lvl : Nat) : Prop :=
  pixelX2 e lvl - pixelX1 e lvl ≤ 1 ∨ pixelY2 e lvl - pixelY1 e lvl ≤ 1

instance (e : Env) (lvl : Nat) : Decidable (degenerate e lvl) :=
  inferInstanceAs (Decidable (pixelX2 e lvl - pixelX1 e lvl ≤ 1 ∨
    pixelY2 e lvl - pixelY1 e lvl ≤ 1))

/-- Line 121: `abs(pixelX1 - pixelX2) * abs(pixelY1 - pixelY2) > MAXSIZE`. -/
def oversized (e : Env) (lvl : Nat) : Prop :=
  (pixelX2 e lvl - pixelX1 e lvl) * (pixelY2 e lvl - pixelY1 e lvl) > MAXSIZE

instance (e : Env) (lvl : Nat) : Decidable (oversized e lvl) :=
  inferInstanceAs (Decidable
    ((pixelX2 e lvl - pixelX1 e lvl) * (pixelY2 e lvl - pixelY1 e lvl) > MAXSIZE))

/-- `tileX1, tileY1 = ts.pixelXYToTileXY(pixelX1, pixelY1)`, first component. -/
def tileX1 (e : Env) (lvl : Nat) : Nat := (pixelXYToTileXY (pixelX1 e lvl) (pixelY1 e lvl)).1

/-- Second component of the same call. -/
def tileY1 (e : Env) (lvl : Nat) : Nat := (pixelXYToTileXY (pixelX1 e lvl) (pixelY1 e lvl)).2

/-- `tileX2, tileY2 = ts.pixelXYToTileXY(pixelX2, pixelY2)`, first component. -/
def tileX2 (e : Env) (lvl : Nat) : Nat := (pixelXYToTileXY (pixelX2 e lvl) (pixelY2 e lvl)).1

/-- Second component of the same call. -/
def tileY2 (e : Env) (lvl : Nat) : Nat := (pixelXYToTileXY (pixelX2 e lvl) (pixelY2 e lvl)).2

/-- `range(tileX_start, tileX_end + 1)` of the row loop. -/
def txList (e : Env) (lvl : Nat) : List Nat :=
  List.range' (tileX1 e lvl) (tileX2 e lvl + 1 - tileX1 e lvl)

/-- `range(tileY1, tileY2 + 1)` of the outer loop. -/
def tyList (e : Env) (lvl : Nat) : List Nat :=
  List.range' (tileY1 e lvl) (tileY2 e lvl + 1 - tileY1 e lvl)

/-- Result of one tile-fetch loop: an uncaught exception, a placeholder tile
(`return False, None`), or success. -/
inductive RowStatus : Type
  | exc : RowStatus
  | fail : RowStatus
  | ok : RowStatus
deriving DecidableEq

/-- The `for tileX in range(...)` loop of
`horizontal_retrieval_and_stitch_image`: fetch each tile in turn, stopping at
the first raising fetch (exception propagates) or first placeholder
(`return False, None`).  Also records the quadkeys whose download was
attempted, in order. -/
def rowGo (e : Env) (lvl ty : Nat) : List Nat → RowStatus × List (List Nat)
  | [] => (.ok, [])
  | tx :: rest =>
    let qk := tileXYToQuadKey tx ty lvl
    match e.fetch qk with
    | none => (.exc, [qk])
    | some false => (.fail, [qk])
    | some true =>
      let r := rowGo e lvl ty rest
      (r.1, qk :: r.2)

/-- The `for tileY in range(tileY1, tileY2 + 1)` loop on lines 131-135: run
each row in turn; the first non-ok row stops the level (`break` plus
`continue`, or a propagating exception). -/
def rowsGo (e : Env) (lvl : Nat) : List Nat → RowStatus × List (List Nat)
  | [] => (.ok, [])
  | ty :: rest =>
    let r := rowGo e lvl ty (txList e lvl)
    match r.1 with
    | .ok =>
      let r2 := rowsGo e lvl rest
      (r2.1, r.2 ++ r2.2)
    | s => (s, r.2)

/-- The geometry of the image a successful level saves: the `Image.new` size,
the `result.paste` positions in loop order, and the `result.crop` box. -/
structure ImageSpec : Type where
  compositeW : Nat
  compositeH : Nat
  pastes : List (Nat × Nat)
  cropL : Nat
  cropT : Nat
  cropR : Nat
  cropB : Nat
deriving DecidableEq

/-- Lines 129, 135 and 141-143 for a successful level: composite of size
`((tileX2 - tileX1 + 1) * tileSize, (tileY2 - tileY1 + 1) * tileSize)`, a
paste at `(0, (tileY - tileY1) * tileSize)` per row in loop order, and the
crop box with the top-left tile's pixel origin subtracted. -/
def mkImage (e : Env) (lvl : Nat) : ImageSpec :=
  let corner := tileXYToPixelXY (tileX1 e lvl) (tileY1 e lvl)
  { compositeW := (tileX2 e lvl - tileX1 e lvl + 1) * e.tileSize
    compositeH := (tileY2 e lvl - tileY1 e lvl + 1) * e.tileSize
    pastes := (tyList e lvl).map fun ty => (0, (ty - tileY1 e lvl) * e.tileSize)
    cropL := pixelX1 e lvl - corner.1
    cropT := pixelY1 e lvl - corner.2
    cropR := pixelX2 e lvl - corner.1
    cropB := pixelY2 e lvl - corner.2 }

/-- Result of `max_resolution_imagery_retrieval`: the bare `return` on line
119 (Python `None`) after the degenerate-box message, the `return False` on
line 151 after exhausting all levels, an uncaught exception from a fetch, or
`return True` on line 150 with the level used and the saved image's
geometry. -/
inductive Outcome : Type
  | degenerateBoundingBox : Outcome
  | noLevelSucceeded : Outcome
  | exception : Outcome
  | success : Nat → ImageSpec → Outcome
deriving DecidableEq

/-- The `for levl in range(self.maxZoom, 0, -1)` search, from level `l` down
to 1, returning the outcome together with the list of levels examined and the
quadkeys fetched, both in order. -/
def searchFrom (e : Env) : Nat → Outcome × List Nat × List (List Nat)
  | 0 => (.noLevelSucceeded, [], [])
  | l + 1 =>
    if degenerate e (l + 1) then (.degenerateBoundingBox, [l + 1], [])
    else if oversized e (l + 1) then
      let r := searchFrom e l
      (r.1, (l + 1) :: r.2.1, r.2.2)
    else
      let rows := rowsGo e (l + 1) (tyList e (l + 1))
      match rows.1 with
      | .exc => (.exception, [l + 1], rows.2)
      | .fail =>
        let r := searchFrom e l
        (r.1, (l + 1) :: r.2.1, rows.2 ++ r.2.2)
      | .ok => (.success (l + 1) (mkImage e (l + 1)), [l + 1], rows.2)

/-- One whole `max_resolution_imagery_retrieval` call. -/
def retrieval (e : Env) : Outcome × List Nat × List (List Nat) :=
  searchFrom e e.maxZoom

/-- Every tile of the covering range at `lvl` downloads and is valid. -/
def allTilesOk (e : Env) (lvl : Nat) : Prop :=
  ∀ ty ∈ tyList e lvl, ∀ tx ∈ txList e lvl, e.fetch (tileXYToQuadKey tx ty lvl) = some true

/-- No tile of the covering range at `lvl` raises during fetch. -/
def noFetchError (e : Env) (lvl : Nat) : Prop :=
  ∀ ty ∈ tyList e lvl, ∀ tx ∈ txList e lvl, e.fetch (tileXYToQuadKey tx ty lvl) ≠ none

/-- Some tile of the covering range at `lvl` is the placeholder/null image. -/
def somePlaceholder (e : Env) (lvl : Nat) : Prop :=
  ∃ ty ∈ tyList e lvl, ∃ tx ∈ txList e lvl, e.fetch (tileXYToQuadKey tx ty lvl) = some false

instance (e : Env) (lvl : Nat) : Decidable (allTilesOk e lvl) :=
  inferInstanceAs (Decidable (∀ ty ∈ tyList e lvl, ∀ tx ∈ txList e lvl,
    e.fetch (tileXYToQuadKey tx ty lvl) = some true))

instance (e : Env) (lvl : Nat) : Decidable (noFetchError e lvl) :=
  inferInstanceAs (Decidable (∀ ty ∈ tyList e lvl, ∀ tx ∈ txList e lvl,
    e.fetch (tileXYToQuadKey tx ty lvl) ≠ none))

instance (e : Env) (lvl : Nat) : Decidable (somePlaceholder e lvl) :=
  inferInstanceAs (Decidable (∃ ty ∈ tyList e lvl, ∃ tx ∈ txList e lvl,
    e.fetch (tileXYToQuadKey tx ty lvl) = some false))

/-! ### Lemmas about the level search -/

theorem rowGo_ok_iff (e : Env) (lvl ty : Nat) (txs : List Nat) :
    (rowGo e lvl ty txs).1 = RowStatus.ok ↔
      ∀ tx ∈ txs, e.fetch (tileXYToQuadKey tx ty lvl) = some true := by
  induction txs with
  | nil => simp [rowGo]
  | cons tx rest ih =>
    cases hf : e.fetch (tileXYToQuadKey tx ty lvl) with
    | none => simp [rowGo, hf]
    | some b =>
      cases b with
      | false => simp [rowGo, hf]
      | true => simp [rowGo, hf, ih]

theorem rowGo_ne_exc (e : Env) (lvl ty : Nat) (txs : List Nat)
    (hne : ∀ tx ∈ txs, e.fetch (tileXYToQuadKey tx ty lvl) ≠ none) :
    (rowGo e lvl ty txs).1 ≠ RowStatus.exc := by
  induction txs with
  | nil => simp [rowGo]
  | cons tx rest ih =>
    cases hf : e.fetch (tileXYToQuadKey tx ty lvl) with
    | none => exact absurd hf (hne tx (List.mem_cons_self tx rest))
    | some b =>
      cases b with
      | false => simp [rowGo, hf]
      | true =>
        simp only [rowGo, hf]
        exact ih fun tx2 h2 => hne tx2 (List.mem_cons_of_mem tx h2)

theorem rowGo_fail (e : Env) (lvl ty : Nat) (txs : List Nat)
    (hne : ∀ tx ∈ txs, e.fetch (tileXYToQuadKey tx ty lvl) ≠ none)
    (hex : ∃ tx ∈ txs, e.fetch (tileXYToQuadKey tx ty lvl) = some false) :
    (rowGo e lvl ty txs).1 = RowStatus.fail := by
  induction txs with
  | nil => simp at hex
  | cons tx rest ih =>
    cases hf : e.fetch (tileXYToQuadKey tx ty lvl) with
    | none => exact absurd hf (hne tx (List.mem_cons_self tx rest))
    | some b =>
      cases b with
      | false => simp [rowGo, hf]
      | true =>
        simp only [rowGo, hf]
        apply ih
        · exact fun tx2 h2 => hne tx2 (List.mem_cons_of_mem tx h2)
        · rcases hex with ⟨tx2, h2, hf2⟩
          rcases List.mem_cons.mp h2 with rfl | h2
          · rw [hf] at hf2
            cases hf2
          · exact ⟨tx2, h2, hf2⟩

theorem rowsGo_ok_iff (e : Env) (lvl : Nat) (tys : List Nat) :
    (rowsGo e lvl tys).1 = RowStatus.ok ↔
      ∀ ty ∈ tys, (rowGo e lvl ty (txList e lvl)).1 = RowStatus.ok := by
  induction tys with
  | nil => simp [rowsGo]
  | cons ty rest ih =>
    cases hr : (rowGo e lvl ty (txList e lvl)).1 with
    | exc => simp [rowsGo, hr]
    | fail => simp [rowsGo, hr]
    | ok => simp [rowsGo, hr, ih]

theorem allTilesOk_iff (e : Env) (lvl : Nat) :
    allTilesOk e lvl ↔ (rowsGo e lvl (tyList e lvl)).1 = RowStatus.ok := by
  rw [rowsGo_ok_iff]
  unfold allTilesOk
  constructor
  · intro h ty hty
    exact (rowGo_ok_iff e lvl ty (txList e lvl)).mpr (h ty hty)
  · intro h ty hty
    exact (rowGo_ok_iff e lvl ty (txList e lvl)).mp (h ty hty)

theorem rowsGo_ne_exc (e : Env) (lvl : Nat) (tys : List Nat)
    (hne : ∀ ty ∈ tys, ∀ tx ∈ txList e lvl, e.fetch (tileXYToQuadKey tx ty lvl) ≠ none) :
    (rowsGo e lvl tys).1 ≠ RowStatus.exc := by
  induction tys with
  | nil => simp [rowsGo]
  | cons ty rest ih =>
    cases hr : (rowGo e lvl ty (txList e lvl)).1 with
    | exc =>
      exact absurd hr (rowGo_ne_exc e lvl ty (txList e lvl) (hne ty (List.mem_cons_self ty rest)))
    | fail => simp [rowsGo, hr]
    | ok =>
      simp only [rowsGo, hr]
      exact ih fun ty2 h2 => hne ty2 (List.mem_cons_of_mem ty h2)

theorem rowsGo_fail (e : Env) (lvl : Nat) (tys : List Nat)
    (hne : ∀ ty ∈ tys, ∀ tx ∈ txList e lvl, e.fetch (tileXYToQuadKey tx ty lvl) ≠ none)
    (hex : ∃ ty ∈ tys, ∃ tx ∈ txList e lvl, e.fetch (tileXYToQuadKey tx ty lvl) = some false) :
    (rowsGo e lvl tys).1 = RowStatus.fail := by
  induction tys with
  | nil => simp at hex
  | cons ty rest ih =>
    cases hr : (rowGo e lvl ty (txList e lvl)).1 with
    | exc =>
      exact absurd hr (rowGo_ne_exc e lvl ty (txList e lvl) (hne ty (List.mem_cons_self ty rest)))
    | fail => simp [rowsGo, hr]
    | ok =>
      simp only [rowsGo, hr]
      apply ih
      · exact fun ty2 h2 => hne ty2 (List.mem_cons_of_mem ty h2)
      · rcases hex with ⟨ty2, hty2, tx2, htx2, hf2⟩
        rcases List.mem_cons.mp hty2 with rfl | hty2
        · have := (rowGo_ok_iff e lvl ty2 (txList e lvl)).mp hr tx2 htx2
          rw [this] at hf2
          cases hf2
        · exact ⟨ty2, hty2, tx2, htx2, hf2⟩

/-- Inversion of a successful search: the image is the one built at the
returned level, that level passed every check, and every finer level in range
was rejected for being oversized or having a bad tile. -/
theorem searchFrom_success_inv (e : Env) :
    ∀ l L img, (searchFrom e l).1 = Outcome.success L img →
      img = mkImage e L ∧ 1 ≤ L ∧ L ≤ l ∧ ¬ degenerate e L ∧ ¬ oversized e L ∧
      allTilesOk e L ∧ ∀ m, L < m → m ≤ l → ¬ (¬ oversized e m ∧ allTilesOk e m) := by
  intro l
  induction l with
  | zero =>
    intro L img h
    simp [searchFrom] at h
  | succ l ih =>
    intro L img h
    by_cases hdeg : degenerate e (l + 1)
    · simp [searchFrom, hdeg] at h
    · by_cases hover : oversized e (l + 1)
      · simp only [searchFrom, if_neg hdeg, if_pos hover] at h
        obtain ⟨h1, h2, h3, h4, h5, h6, h7⟩ := ih L img h
        refine ⟨h1, h2, by omega, h4, h5, h6, ?_⟩
        intro m hm1 hm2
        by_cases hm3 : m = l + 1
        · subst hm3
          rintro ⟨hno, -⟩
          exact hno hover
        · exact h7 m hm1 (by omega)
      · cases hrows : (rowsGo e (l + 1) (tyList e (l + 1))).1 with
        | exc => simp [searchFrom, hdeg, hover, hrows] at h
        | fail =>
          simp only [searchFrom, if_neg hdeg, if_neg hover, hrows] at h
          obtain ⟨h1, h2, h3, h4, h5, h6, h7⟩ := ih L img h
          refine ⟨h1, h2, by omega, h4, h5, h6, ?_⟩
          intro m hm1 hm2
          by_cases hm3 : m = l + 1
          · subst hm3
            rintro ⟨-, hall⟩
            rw [allTilesOk_iff, hrows] at hall
            cases hall
          · exact h7 m hm1 (by omega)
        | ok =>
          simp only [searchFrom, if_neg hdeg, if_neg hover, hrows, Outcome.success.injEq] at h
          obtain ⟨rfl, rfl⟩ := h
          exact ⟨rfl, by omega, le_rfl, hdeg, hover, (allTilesOk_iff e (l + 1)).mpr hrows,
            fun m hm1 hm2 => by omega⟩

theorem searchFrom_examined_head (e : Env) (l : Nat) (hl : 1 ≤ l) :
    (searchFrom e l).2.1.head? = some l := by
  match l, hl with
  | l' + 1, _ =>
    by_cases hdeg : degenerate e (l' + 1)
    · simp [searchFrom, hdeg]
    · by_cases hover : oversized e (l' + 1)
      · simp [searchFrom, hdeg, hover]
      · cases hrows : (rowsGo e (l' + 1) (tyList e (l' + 1))).1 with
        | exc => simp [searchFrom, hdeg, hover, hrows]
        | fail => simp [searchFrom, hdeg, hover, hrows]
        | ok => simp [searchFrom, hdeg, hover, hrows]

/-- The levels examined by the search are consecutive and strictly
descending: each examined level is one below its predecessor. -/
theorem searchFrom_examined_chain (e : Env) :
    ∀ l, List.Chain' (fun a b => b + 1 = a) (searchFrom e l).2.1 := by
  intro l
  induction l with
  | zero => simp [searchFrom]
  | succ l ih =>
    have hcons : ∀ b ∈ (searchFrom e l).2.1.head?, b + 1 = l + 1 := by
      intro b hb
      match l with
      | 0 => simp [searchFrom] at hb
      | l' + 1 =>
        rw [searchFrom_examined_head e (l' + 1) (by omega)] at hb
        simp only [Option.mem_def, Option.some.injEq] at hb
        omega
    by_cases hdeg : degenerate e (l + 1)
    · simp [searchFrom, hdeg]
    · by_cases hover : oversized e (l + 1)
      · simp only [searchFrom, if_neg hdeg, if_pos hover]
        exact List.chain'_cons'.mpr ⟨hcons, ih⟩
      · cases hrows : (rowsGo e (l + 1) (tyList e (l + 1))).1 with
        | exc => simp [searchFrom, hdeg, hover, hrows]
        | fail =>
          simp only [searchFrom, if_neg hdeg, if_neg hover, hrows]
          exact List.chain'_cons'.mpr ⟨hcons, ih⟩
        | ok => simp [searchFrom, hdeg, hover, hrows]

/-! ### Concrete environments used as witnesses and counterexamples -/

/-- A request whose box covers one tile at every level and whose tiles all
download and validate. -/
def envOk : Env := ⟨256, 2, fun _ => ((0, 0), (200, 200)), fun _ => some true⟩

/-- A request whose pixel extent is oversized at every level. -/
def envBig : Env := ⟨256, 2, fun _ => ((0, 0), (100000, 100000)), fun _ => some true⟩

/-- A request whose corners are one pixel apart in x but far apart in y: every
level is simultaneously degenerate and over budget. -/
def envDegOver : Env := ⟨256, 2, fun _ => ((0, 0), (1, 600000000)), fun _ => some true⟩

/-- A request whose corners land one pixel apart in both directions. -/
def envDeg : Env := ⟨256, 1, fun _ => ((0, 0), (1, 1)), fun _ => some true⟩

/-- A request whose level-2 tile fetch raises (quadkeys of length 2 get
`none`) while level 1 works. -/
def envErr : Env :=
  ⟨256, 2, fun _ => ((0, 0), (200, 200)), fun qk => if qk.length = 1 then some true else none⟩

/-- A request in which every tile downloads but is the placeholder image. -/
def envPl : Env := ⟨256, 1, fun _ => ((0, 0), (200, 200)), fun _ => some false⟩

/-- Counterexample to C3 as stated: a level whose pixel area exceeds the
budget is not always "skipped with the next coarser level tried" — when the
same level is also degenerate, the degenerate check on line 117 fires first
and the whole search stops there (only level 2 is examined, nothing is
fetched, level 1 is never tried). -/
theorem levelSearch_skip_counterexample :
    oversized envDegOver 2 ∧
    searchFrom envDegOver 2 = (Outcome.degenerateBoundingBox, [2], []) := by
  constructor
  · decide
  · decide

/-- Claim C3 (amended: a level that passes the degenerate check and exceeds
the pixel budget is skipped): the examined levels are consecutive descending;
a non-degenerate oversized level is skipped in favour of the next coarser
level; and a successful retrieval returns the greatest level within
`[1, maxZoom]` that is within budget with all tiles available. -/
theorem levelSearch_descending_maximal (e : Env) :
    (∀ l, List.Chain' (fun a b => b + 1 = a) (searchFrom e l).2.1) ∧
    (∀ l, ¬ degenerate e (l + 1) → oversized e (l + 1) →
      searchFrom e (l + 1) =
        ((searchFrom e l).1, (l + 1) :: (searchFrom e l).2.1, (searchFrom e l).2.2)) ∧
    (∀ L img, (retrieval e).1 = Outcome.success L img →
      1 ≤ L ∧ L ≤ e.maxZoom ∧ ¬ oversized e L ∧ allTilesOk e L ∧
      ∀ m, L < m → m ≤ e.maxZoom → ¬ (¬ oversized e m ∧ allTilesOk e m)) := by
  refine ⟨searchFrom_examined_chain e, ?_, ?_⟩
  · intro l h1 h2
    simp [searchFrom, if_neg h1, if_pos h2]
  · intro L img h
    obtain ⟨-, h2, h3, -, h5, h6, h7⟩ := searchFrom_success_inv e e.maxZoom L img h
    exact ⟨h2, h3, h5, h6, h7⟩

/-- Witness for C3: in `envBig` level 2 is oversized and skipped (same
outcome as starting at level 1); in `envOk` the search succeeds at level 2,
the top of the range, with all tiles available. -/
theorem levelSearch_descending_maximal_witness :
    searchFrom envBig 2 =
      ((searchFrom envBig 1).1, 2 :: (searchFrom envBig 1).2.1, (searchFrom envBig 1).2.2) ∧
    1 ≤ 2 ∧ 2 ≤ envOk.maxZoom ∧ allTilesOk envOk 2 :=
  ⟨(levelSearch_descending_maximal envBig).2.1 1 (by decide) (by decide),
   ((levelSearch_descending_maximal envOk).2.2 2 (mkImage envOk 2) (by decide)).1,
   ((levelSearch_descending_maximal envOk).2.2 2 (mkImage envOk 2) (by decide)).2.1,
   ((levelSearch_descending_maximal envOk).2.2 2 (mkImage envOk 2) (by decide)).2.2.2.1⟩

/-- Claim C4: when the current candidate level is degenerate, the whole
search returns the degenerate-bounding-box outcome at once: only that level
is examined, nothing is fetched, and that outcome is a different value from
the all-levels-exhausted `noLevelSucceeded` (`return` / Python `None` on line
119 versus `return False` on line 151). -/
theorem degenerate_aborts_search (e : Env) (l : Nat) (h : degenerate e (l + 1)) :
    searchFrom e (l + 1) = (Outcome.degenerateBoundingBox, [l + 1], []) ∧
    Outcome.degenerateBoundingBox ≠ Outcome.noLevelSucceeded := by
  constructor
  · simp [searchFrom, if_pos h]
  · decide

/-- Witness for C4 in `envDeg`, whose corners are one pixel apart. -/
theorem degenerate_aborts_search_witness :
    searchFrom envDeg 1 = (Outcome.degenerateBoundingBox, [1], []) :=
  (degenerate_aborts_search envDeg 0 (by decide)).1

/-- Counterexample to C5 as stated: in `envErr` the first tile fetch of level
2 raises; the exception is uncaught, so the whole request aborts with it
instead of falling through to level 1 — even though the search starting at
level 1 would succeed. -/
theorem fetch_error_aborts_request :
    (retrieval envErr).1 = Outcome.exception ∧
    (searchFrom envErr 1).1 = Outcome.success 1 (mkImage envErr 1) ∧
    (retrieval envErr).1 ≠ (searchFrom envErr 1).1 := by
  refine ⟨by decide, by decide, by decide⟩

/-- Claim C5 (amended: only the placeholder case is recoverable): a
placeholder tile at a level that passed the degenerate and size checks makes
the search continue exactly as if it had started at the next coarser level,
and no image is produced at the abandoned level; when no fetch ever raises,
the search never ends in an exception; and within a level the rows after the
failing row are never attempted. -/
theorem placeholder_recoverable (e : Env) (l : Nat) :
    (¬ degenerate e (l + 1) → ¬ oversized e (l + 1) → noFetchError e (l + 1) →
      somePlaceholder e (l + 1) →
      (searchFrom e (l + 1)).1 = (searchFrom e l).1 ∧
      ∀ img, (searchFrom e (l + 1)).1 ≠ Outcome.success (l + 1) img) ∧
    ((∀ qk, e.fetch qk ≠ none) → ∀ l2, (searchFrom e l2).1 ≠ Outcome.exception) ∧
    (∀ ty tys1 tys2,
      (∀ ty2 ∈ tys1, (rowGo e (l + 1) ty2 (txList e (l + 1))).1 = RowStatus.ok) →
      (rowGo e (l + 1) ty (txList e (l + 1))).1 = RowStatus.fail →
      rowsGo e (l + 1) (tys1 ++ ty :: tys2) =
        (RowStatus.fail,
          (tys1.flatMap fun ty2 => (rowGo e (l + 1) ty2 (txList e (l + 1))).2) ++
            (rowGo e (l + 1) ty (txList e (l + 1))).2)) := by
  refine ⟨?_, ?_, ?_⟩
  · intro hdeg hover hne hpl
    have hfail : (rowsGo e (l + 1) (tyList e (l + 1))).1 = RowStatus.fail :=
      rowsGo_fail e (l + 1) (tyList e (l + 1)) hne hpl
    constructor
    · simp [searchFrom, if_neg hdeg, if_neg hover, hfail]
    · intro img
      simp only [searchFrom, if_neg hdeg, if_neg hover, hfail]
      intro hsucc
      have := (searchFrom_success_inv e l (l + 1) img hsucc).2.2.1
      omega
  · intro hqk l2
    induction l2 with
    | zero => simp [searchFrom]
    | succ l2 ih =>
      by_cases hdeg : degenerate e (l2 + 1)
      · simp [searchFrom, hdeg]
      · by_cases hover : oversized e (l2 + 1)
        · simp only [searchFrom, if_neg hdeg, if_pos hover]
          exact ih
        · cases hrows : (rowsGo e (l2 + 1) (tyList e (l2 + 1))).1 with
          | exc =>
            exact absurd hrows (rowsGo_ne_exc e (l2 + 1) (tyList e (l2 + 1))
              fun ty _ tx _ => hqk _)
          | fail =>
            simp only [searchFrom, if_neg hdeg, if_neg hover, hrows]
            exact ih
          | ok => simp [searchFrom, hdeg, hover, hrows]
  · intro ty tys1 tys2 hok hfail
    induction tys1 with
    | nil => simp [rowsGo, hfail]
    | cons t ts ih =>
      have hokt : (rowGo e (l + 1) t (txList e (l + 1))).1 = RowStatus.ok :=
        hok t (List.mem_cons_self t ts)
      have ihr := ih fun ty2 h2 => hok ty2 (List.mem_cons_of_mem t h2)
      simp only [List.cons_append, rowsGo, hokt, List.append_eq, ihr, List.flatMap_cons,
        List.append_assoc]

/-- Witness for C5 in `envPl`, where every tile is the placeholder: level 1
is abandoned and the search falls to the (empty) coarser range, no exception
ever occurs, and the single-row spine stops at the failing row. -/
theorem placeholder_recoverable_witness :
    (searchFrom envPl 1).1 = (searchFrom envPl 0).1 ∧
    (searchFrom envPl 1).1 ≠ Outcome.exception ∧
    rowsGo envPl 1 ([] ++ 0 :: []) =
      (RowStatus.fail,
        (([] : List Nat).flatMap fun ty2 => (rowGo envPl 1 ty2 (txList envPl 1)).2) ++
          (rowGo envPl 1 0 (txList envPl 1)).2) :=
  ⟨((placeholder_recoverable envPl 0).1 (by decide) (by decide) (by decide) (by decide)).1,
   (placeholder_recoverable envPl 0).2.1 (fun qk => by simp [envPl]) 1,
   (placeholder_recoverable envPl 0).2.2 0 [] [] (by simp) (by decide)⟩

theorem chain_lt_offsets (ts ty1 : Nat) (hts : 0 < ts) :
    ∀ n a, ty1 ≤ a →
      List.Chain' (· < ·) ((List.range' a n).map fun ty => (ty - ty1) * ts) := by
  intro n
  induction n with
  | zero =>
    intro a _
    simp
  | succ n ih =>
    intro a ha
    rw [List.range'_succ, List.map_cons]
    refine List.chain'_cons'.mpr ⟨?_, ih (a + 1) (by omega)⟩
    intro b hb
    match n with
    | 0 => simp at hb
    | k + 1 =>
      rw [List.range'_succ, List.map_cons] at hb
      simp only [List.head?_cons, Option.mem_def, Option.some.injEq] at hb
      subst hb
      have hstep : a + 1 - ty1 = (a - ty1) + 1 := by omega
      rw [hstep]
      exact (mul_lt_mul_right hts).mpr (by omega)

/-- Claim C8: at a successful level the composite buffer has size
`(tileX2 - tileX1 + 1) * tileSize` by `(tileY2 - tileY1 + 1) * tileSize`, the
rows are pasted at vertical offsets `(tileY - tileY1) * tileSize` in strictly
increasing tileY order, the crop box subtracts the top-left tile's pixel
origin `tileXYToPixelXY(tileX1, tileY1)` from the normalised corner pixels,
and hence the saved image measures
`(pixelX2 - pixelX1) × (pixelY2 - pixelY1)`. -/
theorem success_image_geometry (e : Env) (l0 L : Nat) (img : ImageSpec)
    (hts : 0 < e.tileSize) (h : (searchFrom e l0).1 = Outcome.success L img) :
    img.compositeW = (tileX2 e L - tileX1 e L + 1) * e.tileSize ∧
    img.compositeH = (tileY2 e L - tileY1 e L + 1) * e.tileSize ∧
    img.pastes = (tyList e L).map (fun ty => (0, (ty - tileY1 e L) * e.tileSize)) ∧
    List.Chain' (· < ·) (img.pastes.map Prod.snd) ∧
    img.cropL = pixelX1 e L - (tileXYToPixelXY (tileX1 e L) (tileY1 e L)).1 ∧
    img.cropT = pixelY1 e L - (tileXYToPixelXY (tileX1 e L) (tileY1 e L)).2 ∧
    img.cropR = pixelX2 e L - (tileXYToPixelXY (tileX1 e L) (tileY1 e L)).1 ∧
    img.cropB = pixelY2 e L - (tileXYToPixelXY (tileX1 e L) (tileY1 e L)).2 ∧
    img.cropR - img.cropL = pixelX2 e L - pixelX1 e L ∧
    img.cropB - img.cropT = pixelY2 e L - pixelY1 e L := by
  obtain ⟨h1, -⟩ := searchFrom_success_inv e l0 L img h
  subst h1
  have hX1 : (tileXYToPixelXY (tileX1 e L) (tileY1 e L)).1 ≤ pixelX1 e L := by
    show tileX1 e L * TILESIZE ≤ pixelX1 e L
    exact Nat.div_mul_le_self (pixelX1 e L) TILESIZE
  have hY1 : (tileXYToPixelXY (tileX1 e L) (tileY1 e L)).2 ≤ pixelY1 e L := by
    show tileY1 e L * TILESIZE ≤ pixelY1 e L
    exact Nat.div_mul_le_self (pixelY1 e L) TILESIZE
  have hX12 : pixelX1 e L ≤ pixelX2 e L := min_le_max
  have hY12 : pixelY1 e L ≤ pixelY2 e L := min_le_max
  refine ⟨rfl, rfl, rfl, ?_, rfl, rfl, rfl, rfl, ?_, ?_⟩
  · show List.Chain' (· < ·)
      (((tyList e L).map fun ty => ((0 : Nat), (ty - tileY1 e L) * e.tileSize)).map Prod.snd)
    rw [List.map_map]
    exact chain_lt_offsets e.tileSize (tileY1 e L) hts _ (tileY1 e L) le_rfl
  · show pixelX2 e L - (tileXYToPixelXY (tileX1 e L) (tileY1 e L)).1 -
      (pixelX1 e L - (tileXYToPixelXY (tileX1 e L) (tileY1 e L)).1) =
      pixelX2 e L - pixelX1 e L
    omega
  · show pixelY2 e L - (tileXYToPixelXY (tileX1 e L) (tileY1 e L)).2 -
      (pixelY1 e L - (tileXYToPixelXY (tileX1 e L) (tileY1 e L)).2) =
      pixelY2 e L - pixelY1 e L
    omega

/-- Witness for C8 at the successful level 2 of `envOk`. -/
theorem success_image_geometry_witness :
    (mkImage envOk 2).compositeW = (tileX2 envOk 2 - tileX1 envOk 2 + 1) * envOk.tileSize ∧
    (mkImage envOk 2).cropR - (mkImage envOk 2).cropL = pixelX2 envOk 2 - pixelX1 envOk 2 :=
  ⟨(success_image_geometry envOk 2 2 (mkImage envOk 2) (by decide) (by decide)).1,
   (success_image_geometry envOk 2 2 (mkImage envOk 2) (by decide)
      (by decide)).2.2.2.2.2.2.2.2.1⟩
